import Mathlib

/-
Verification of the Supervisor → Sub-Agents → Synthesizer pipeline of
path365/mars-line-bot, a shallow embedding of `handleEvent` in
`src/api/index.js` together with the prompt builders in
`src/prompts/index.js`.

The generative backend (`model.generateContent`) is modelled as an oracle
`Nat → GenResult` indexed by the order in which calls are issued; each call
either succeeds with a text or fails (a rejected promise).  JavaScript
exceptions inside the `try` block of `handleEvent` are modelled with
`Except`, the outer `catch` being the eliminator that produces the fixed
apology reply.
-/

namespace MarsBot

/-- The backtick character (0x60), kept as a named constant. -/
def btick : Char := Char.ofNat 96

/-- JSON values as produced by `JSON.parse`. -/
inductive Json where
  | nullV : Json
  | boolV : Bool → Json
  | numV : Int → Json
  | strV : String → Json
  | arr : List Json → Json
  | obj : List (String × Json) → Json
  deriving Repr

/-! ### The JSON parser (model of `JSON.parse`)

A fueled recursive-descent parser over `List Char`.  Model simplifications
relative to the ECMAScript grammar, none of which matter for the claims:
numbers are integers only (no fractions/exponents, leading zeros accepted),
`\u` escapes are rejected, and trailing commas are accepted.  The parser is
a total function; `none` models a thrown `SyntaxError`. -/

/-- JSON insignificant whitespace. -/
def isJsonWs (c : Char) : Bool :=
  c = ' ' || c = '\t' || c = '\n' || c = '\r'

/-- Skip leading JSON whitespace. -/
def skipWs (cs : List Char) : List Char := cs.dropWhile isJsonWs

/-- Decode a single-character escape sequence. -/
def escChar (c : Char) : Option Char :=
  if c = '"' then some '"'
  else if c = '\\' then some '\\'
  else if c = '/' then some '/'
  else if c = 'n' then some '\n'
  else if c = 't' then some '\t'
  else if c = 'r' then some '\r'
  else if c = 'b' then some (Char.ofNat 8)
  else if c = 'f' then some (Char.ofNat 12)
  else none

/-- Parse the body of a JSON string (the opening quote already consumed),
returning the decoded content and the rest of the input. -/
def parseStrBody : List Char → Option (List Char × List Char)
  | [] => none
  | c :: rest =>
    if c = '"' then some ([], rest)
    else if c = '\\' then
      match rest with
      | [] => none
      | e :: rest2 =>
        match escChar e with
        | none => none
        | some d => (parseStrBody rest2).map fun p => (d :: p.1, p.2)
    else (parseStrBody rest).map fun p => (c :: p.1, p.2)

/-- Numeric value of a list of decimal digits. -/
def digitsVal (cs : List Char) : Nat :=
  cs.foldl (fun a c => a * 10 + (c.toNat - 48)) 0

/-- Parse an (integer) JSON number. -/
def parseNum (cs : List Char) : Option (Int × List Char) :=
  match cs with
  | '-' :: rest =>
    let ds := rest.takeWhile Char.isDigit
    if ds = [] then none
    else some (-(digitsVal ds : Int), rest.dropWhile Char.isDigit)
  | _ =>
    let ds := cs.takeWhile Char.isDigit
    if ds = [] then none
    else some ((digitsVal ds : Int), cs.dropWhile Char.isDigit)

mutual

/-- Parse one JSON value. -/
def parseVal : Nat → List Char → Option (Json × List Char)
  | 0, _ => none
  | fuel + 1, cs =>
    match skipWs cs with
    | [] => none
    | c :: rest =>
      if c = '"' then (parseStrBody rest).map fun p => (Json.strV ⟨p.1⟩, p.2)
      else if c = '[' then (parseElems fuel rest).map fun p => (Json.arr p.1, p.2)
      else if c = '{' then (parseFields fuel rest).map fun p => (Json.obj p.1, p.2)
      else if c = 'n' then
        if rest.take 3 = ['u', 'l', 'l'] then some (Json.nullV, rest.drop 3) else none
      else if c = 't' then
        if rest.take 3 = ['r', 'u', 'e'] then some (Json.boolV true, rest.drop 3) else none
      else if c = 'f' then
        if rest.take 4 = ['a', 'l', 's', 'e'] then some (Json.boolV false, rest.drop 4) else none
      else (parseNum (c :: rest)).map fun p => (Json.numV p.1, p.2)

/-- Parse the elements of a JSON array (the opening bracket already consumed). -/
def parseElems : Nat → List Char → Option (List Json × List Char)
  | 0, _ => none
  | fuel + 1, cs =>
    match skipWs cs with
    | [] => none
    | c :: rest =>
      if c = ']' then some ([], rest)
      else
        match parseVal fuel (c :: rest) with
        | none => none
        | some (v, cs2) =>
          match skipWs cs2 with
          | [] => none
          | d :: cs3 =>
            if d = ',' then (parseElems fuel cs3).map fun p => (v :: p.1, p.2)
            else if d = ']' then some ([v], cs3)
            else none

/-- Parse the fields of a JSON object (the opening brace already consumed). -/
def parseFields : Nat → List Char → Option (List (String × Json) × List Char)
  | 0, _ => none
  | fuel + 1, cs =>
    match skipWs cs with
    | [] => none
    | c :: rest =>
      if c = '}' then some ([], rest)
      else if c = '"' then
        match parseStrBody rest with
        | none => none
        | some (k, cs2) =>
          match skipWs cs2 with
          | [] => none
          | d :: cs3 =>
            if d = ':' then
              match parseVal fuel cs3 with
              | none => none
              | some (v, cs4) =>
                match skipWs cs4 with
                | [] => none
                | e :: cs5 =>
                  if e = ',' then (parseFields fuel cs5).map fun p => ((⟨k⟩, v) :: p.1, p.2)
                  else if e = '}' then some ([(⟨k⟩, v)], cs5)
                  else none
            else none
      else none

end

/-- Parse a complete JSON text: one value, then only trailing whitespace.
`none` models `JSON.parse` throwing. -/
def parseJsonChars (cs : List Char) : Option Json :=
  match parseVal (2 * cs.length + 2) cs with
  | some (v, rest) => if skipWs rest = [] then some v else none
  | none => none

/-! ### Cleaning (model of `.replace(/```json\n?|```/gi, '').trim()`) -/

/-- Whitespace removed by `String.prototype.trim` (common cases). -/
def jsWs (c : Char) : Bool :=
  c = ' ' || c = '\t' || c = '\n' || c = '\r' || c = Char.ofNat 11 || c = Char.ofNat 12

/-- Trim whitespace from both ends. -/
def trimChars (cs : List Char) : List Char :=
  ((cs.dropWhile jsWs).reverse.dropWhile jsWs).reverse

/-- Case-insensitive letter test. -/
def ciIs (lo up c : Char) : Bool := c = lo || c = up

/-- Does the input start with a (case-insensitive) `json` tag? -/
def jsonTagB : List Char → Bool
  | c1 :: c2 :: c3 :: c4 :: _ =>
    ciIs 'j' 'J' c1 && ciIs 's' 'S' c2 && ciIs 'o' 'O' c3 && ciIs 'n' 'N' c4
  | _ => false

/-- Does the input start with three backticks? -/
def fenceTicksB (cs : List Char) : Bool := decide (cs.take 3 = [btick, btick, btick])

/-- Does the input start with a (case-insensitive) ```` ```json ````? -/
def fenceJsonB (cs : List Char) : Bool := fenceTicksB cs && jsonTagB (cs.drop 3)

/-- Does the input start with ```` ```json ```` followed by a newline? -/
def fenceJsonNlB (cs : List Char) : Bool :=
  fenceJsonB cs && decide ((cs.drop 7).take 1 = ['\n'])

/-- Model of `replace(/```json\n?|```/gi, '')`: scan left to right, removing
at each position the first matching alternative (the greedy `\n?` means the
8-character form is tried before the 7-character one), and continue after
the removed match. -/
def stripFences : List Char → List Char
  | [] => []
  | c :: rest =>
    if fenceJsonNlB (c :: rest) then stripFences (rest.drop 7)
    else if fenceJsonB (c :: rest) then stripFences (rest.drop 6)
    else if fenceTicksB (c :: rest) then stripFences (rest.drop 2)
    else c :: stripFences rest
termination_by cs => cs.length
decreasing_by
  all_goals simp [List.length_drop]
  all_goals omega

/-- The cleaned supervisor output: strip fences, then trim. -/
def cleanOf (s : String) : List Char := trimChars (stripFences s.data)

/-! ### The parse step of `handleEvent`

`tasks` starts as `[]`, is reassigned to `JSON.parse(clean)` if that does
not throw, and the branch condition `!Array.isArray(tasks) ||
tasks.length === 0` selects the fallback path. -/

/-- The value of the `tasks` variable after the inner `try`/`catch`:
the parsed JSON on success, the empty array on a parse error. -/
def parsedTasks (raw : String) : Json :=
  match parseJsonChars (cleanOf raw) with
  | some v => v
  | none => Json.arr []

/-- The effective task list: the elements when `tasks` is an array,
`[]` otherwise (`!Array.isArray(tasks)` sends non-arrays to the
fallback path exactly like an empty array). -/
def effectiveTasks (raw : String) : List Json :=
  match parsedTasks raw with
  | Json.arr ts => ts
  | _ => []

/-! ### JavaScript value semantics used by the fan-out stage -/

/-- A JavaScript value appearing at `task.role`: a JSON value or `undefined`. -/
inductive JsVal where
  | val : Json → JsVal
  | undef : JsVal
  deriving Repr

/-- Property lookup on a JS object literal: later duplicate keys win
(as in `JSON.parse`). -/
def jsLookupLast (fs : List (String × Json)) (k : String) : Option Json :=
  fs.foldl (fun acc p => if p.1 = k then some p.2 else acc) none

/-- JS member access `v[k]`: `none` models the `TypeError` thrown on `null`;
primitives yield `undefined`. -/
def getField : Json → String → Option JsVal
  | Json.nullV, _ => none
  | Json.obj fs, k =>
    some (match jsLookupLast fs k with
          | some v => JsVal.val v
          | none => JsVal.undef)
  | _, _ => some JsVal.undef

mutual

/-- String conversion of a JSON value, as performed by template-literal
interpolation (`String(v)`); array elements that are `null` render empty
inside `Array.prototype.join`. -/
def jsToString : Json → String
  | Json.nullV => "null"
  | Json.boolV true => "true"
  | Json.boolV false => "false"
  | Json.numV n => toString n
  | Json.strV s => s
  | Json.arr xs => jsToStringList xs
  | Json.obj _ => "[object Object]"

/-- `Array.prototype.toString` (i.e. `join(",")`) on the elements. -/
def jsToStringList : List Json → String
  | [] => ""
  | [Json.nullV] => ""
  | [x] => jsToString x
  | Json.nullV :: xs => "," ++ jsToStringList xs
  | x :: xs => jsToString x ++ "," ++ jsToStringList xs

end

/-- Interpolated form of a possibly-`undefined` JS value. -/
def jsValToString : JsVal → String
  | JsVal.val v => jsToString v
  | JsVal.undef => "undefined"

/-! ### Prompt catalog (src/prompts/index.js) -/

/-- The fixed supervisor instruction template (`SUPERVISOR_PROMPT`). -/
def SUPERVISOR_PROMPT : String :=
  "你是一個統管 AI Agent 的 Supervisor。請分析使用者的要求，並將其拆解為多個獨立的子任務。判斷每個子任務需要哪種專業角色的 AI (例如: 翻譯員、程式設計師、搜尋專家)。\n請嚴格輸出 JSON 陣列，格式為: [\x7b\"role\": \"角色名稱\", \"instruction\": \"具體指令\"\x7d]。如果判定使用者的要求非常簡單，只需要單一對話即可完成，請輸出空陣列 []。\n不要輸出其他任何 Markdown 或文字解釋，只能輸出純 JSON。"

/-- `buildAgentPrompt(role, instruction, userMessage)`. -/
def buildAgentPrompt (role instruction userMessage : String) : String :=
  "你現在是 " ++ role ++ "。請根據以下指令執行任務，並直接給出結果：\n" ++ instruction
    ++ "\n\n這是一開始使用者的原始訊息作為參考：" ++ userMessage

/-- `buildSynthesizerPrompt(userMessage, agentResultsCombined)`. -/
def buildSynthesizerPrompt (userMessage agentResultsCombined : String) : String :=
  "你是一個負責統整最終報告的 Synthesizer AI。\n這是一開始使用者的要求：\n\"" ++ userMessage
    ++ "\"\n\n以下是各個專業 AI Agent 完成的結果：\n" ++ agentResultsCombined
    ++ "\n\n請將這些結果綜整成一個連貫、自然且易讀的最終回覆給使用者。請直接給出回覆內容，不需提及你是由哪些 Agent 統整出來的。"

/-! ### The pipeline orchestrator (src/api/index.js, handleEvent) -/

/-- Result of one `model.generateContent` call: success with the response
text, or failure (rejected promise). -/
inductive GenResult where
  | ok : String → GenResult
  | fail : GenResult
  deriving Repr, DecidableEq

/-- The generation backend, indexed by issuance order of the calls. -/
abbrev Oracle := Nat → GenResult

/-- The fixed user-facing apology reply of the outer `catch`. -/
def APOLOGY : String := "對不起，我在處理任務時遇到了一點系統錯誤，請稍後再試。"

/-- The supervisor call's prompt (template + verbatim user message). -/
def supervisorPrompt (userMessage : String) : String :=
  SUPERVISOR_PROMPT ++ "\n\n用戶訊息：" ++ userMessage

/-- The prompt and interpolated role label of one sub-agent map callback;
`none` models the `TypeError` thrown by `task.role` when `task` is `null`,
which happens before the per-task `try` and before the backend call. -/
def agentCall? (task : Json) (userMessage : String) : Option (String × String) :=
  match getField task "role", getField task "instruction" with
  | some r, some i =>
    some (buildAgentPrompt (jsValToString r) (jsValToString i) userMessage, jsValToString r)
  | _, _ => none

/-- Run the sub-agent fan-out over the task list starting at oracle call
index `idx`.  Returns the prompts actually sent (in issuance order), the
per-task settlement (`none` = that callback threw before calling the
backend) and the next free call index.  A failed backend call is converted
to the fixed placeholder report inside the per-task `catch`. -/
def runAgents (oracle : Oracle) (userMessage : String) :
    List Json → Nat → List String × List (Option String) × Nat
  | [], idx => ([], [], idx)
  | task :: rest, idx =>
    match agentCall? task userMessage with
    | none =>
      let r := runAgents oracle userMessage rest idx
      (r.1, none :: r.2.1, r.2.2)
    | some (prompt, roleStr) =>
      let out :=
        match oracle idx with
        | GenResult.ok t => "【" ++ roleStr ++ " 的回報】:\n" ++ t
        | GenResult.fail => "【" ++ roleStr ++ " 的回報】: (執行失敗)"
      let r := runAgents oracle userMessage rest (idx + 1)
      (prompt :: r.1, some out :: r.2.1, r.2.2)

/-- `Array.prototype.join(sep)` on an array of strings. -/
def joinSep (sep : String) : List String → String
  | [] => ""
  | [x] => x
  | x :: xs => x ++ sep ++ joinSep sep xs

/-- The body of the `try` block of `handleEvent` for a text message:
`ok (reply, trace)` on normal completion, `error trace` when an exception
reached the outer `catch`.  The trace records every prompt passed to the
generation backend, in issuance order. -/
def pipelineBody (oracle : Oracle) (userMessage : String) :
    Except (List String) (String × List String) :=
  match oracle 0 with
  | GenResult.fail => Except.error [supervisorPrompt userMessage]
  | GenResult.ok supText =>
    let ts := effectiveTasks supText
    if ts.isEmpty then
      -- simple fallback mode: one call with the raw user message
      match oracle 1 with
      | GenResult.ok t => Except.ok (t, [supervisorPrompt userMessage, userMessage])
      | GenResult.fail => Except.error [supervisorPrompt userMessage, userMessage]
    else
      let r := runAgents oracle userMessage ts 1
      if r.2.1.all Option.isSome then
        let combined := joinSep "\n\n" (r.2.1.filterMap id)
        let synthPrompt := buildSynthesizerPrompt userMessage combined
        match oracle r.2.2 with
        | GenResult.ok t =>
          Except.ok (t, supervisorPrompt userMessage :: r.1 ++ [synthPrompt])
        | GenResult.fail =>
          Except.error (supervisorPrompt userMessage :: r.1 ++ [synthPrompt])
      else
        -- some map callback threw: Promise.all rejects before synthesis
        Except.error (supervisorPrompt userMessage :: r.1)

/-- Terminal value of one pipeline invocation. -/
inductive PipelineResult where
  | done : String → PipelineResult
  | failedReply : String → PipelineResult
  deriving Repr, DecidableEq

/-- The reply text carried by a pipeline result. -/
def PipelineResult.text : PipelineResult → String
  | PipelineResult.done t => t
  | PipelineResult.failedReply t => t

/-- `handleEvent` on a text message: the `try` body with the outer `catch`
eliminated into the fixed apology reply.  Returns the terminal result and
the trace of backend prompts. -/
def handleTextMessage (oracle : Oracle) (userMessage : String) :
    PipelineResult × List String :=
  match pipelineBody oracle userMessage with
  | Except.ok (t, tr) => (PipelineResult.done t, tr)
  | Except.error tr => (PipelineResult.failedReply APOLOGY, tr)

/-! ### Task descriptors and JSON array texts

`TaskDescriptor` is the data-model entity produced by the supervisor:
a `\x7brole, instruction\x7d` object.  `renderTasks` produces the canonical
JSON array text for a descriptor list; quantifying over descriptor lists
whose fields need no escaping covers the spec's "valid JSON array text of
`\x7brole, instruction\x7d` objects". -/

structure TaskDescriptor where
  role : String
  instruction : String
  deriving Repr, DecidableEq

/-- The JSON value of a descriptor. -/
def TaskDescriptor.toJson (t : TaskDescriptor) : Json :=
  Json.obj [("role", Json.strV t.role), ("instruction", Json.strV t.instruction)]

/-- A field string that needs no escaping in a JSON literal and contains no
backtick (so fenced-code stripping cannot touch it). -/
def SimpleStr (s : String) : Prop :=
  ∀ c ∈ s.data, c ≠ '"' ∧ c ≠ '\\' ∧ c ≠ btick

instance : DecidablePred SimpleStr := fun s =>
  inferInstanceAs (Decidable (∀ c ∈ s.data, c ≠ '"' ∧ c ≠ '\\' ∧ c ≠ btick))

/-- A descriptor whose two fields are simple strings. -/
def SimpleTask (t : TaskDescriptor) : Prop := SimpleStr t.role ∧ SimpleStr t.instruction

instance : DecidablePred SimpleTask := fun t =>
  inferInstanceAs (Decidable (SimpleStr t.role ∧ SimpleStr t.instruction))

/-- A quoted JSON string literal. -/
def qstr (s : String) : List Char := '"' :: s.data ++ ['"']

/-- The JSON object literal of one descriptor. -/
def renderTaskChars (t : TaskDescriptor) : List Char :=
  '{' :: (qstr "role" ++ ':' :: qstr t.role ++ ',' :: qstr "instruction"
    ++ ':' :: qstr t.instruction ++ ['}'])

/-- The remaining elements of the array literal, each preceded by a comma. -/
def renderTailChars : List TaskDescriptor → List Char
  | [] => []
  | t :: ts => ',' :: (renderTaskChars t ++ renderTailChars ts)

/-- The inside of the array literal. -/
def renderBody : List TaskDescriptor → List Char
  | [] => []
  | t :: ts => renderTaskChars t ++ renderTailChars ts

/-- The JSON array text of a descriptor list. -/
def renderTasksChars (ts : List TaskDescriptor) : List Char :=
  '[' :: renderBody ts ++ [']']

/-- The JSON array text of a descriptor list, as a string. -/
def renderTasks (ts : List TaskDescriptor) : String := ⟨renderTasksChars ts⟩

/-- A tagged fenced-code wrapping of a supervisor output. -/
def wrapTagged (s : String) : String := "```json\n" ++ s ++ "\n```"

/-- An untagged fenced-code wrapping of a supervisor output. -/
def wrapPlain (s : String) : String := "```\n" ++ s ++ "\n```"

/-- The sub-agent prompt of a descriptor. -/
def agentPromptOf (msg : String) (d : TaskDescriptor) : String :=
  buildAgentPrompt d.role d.instruction msg

/-- The settled report of one descriptor's sub-agent call: the labeled
backend text on success, the labeled fixed placeholder on failure. -/
def descOutcome (oracle : Oracle) (idx : Nat) (d : TaskDescriptor) : String :=
  match oracle idx with
  | GenResult.ok t => "【" ++ d.role ++ " 的回報】:\n" ++ t
  | GenResult.fail => "【" ++ d.role ++ " 的回報】: (執行失敗)"

/-- The reports of a descriptor list whose calls start at index `idx`. -/
def descOutcomes (oracle : Oracle) : Nat → List TaskDescriptor → List String
  | _, [] => []
  | idx, d :: ds => descOutcome oracle idx d :: descOutcomes oracle (idx + 1) ds

/-- The reports of a descriptor list when every call succeeds, the call for
the `k`-th descriptor returning `f k`. -/
def realOutcomes (f : Nat → String) : Nat → List TaskDescriptor → List String
  | _, [] => []
  | k, d :: ds => ("【" ++ d.role ++ " 的回報】:\n" ++ f k) :: realOutcomes f (k + 1) ds

/-- The labeled placeholder report of a failed sub-agent call. -/
def failOutcome (d : TaskDescriptor) : String := "【" ++ d.role ++ " 的回報】: (執行失敗)"

/-- `rolesInOrder rs s` states that the strings `rs` occur in `s` in the
given order, at non-overlapping positions. -/
def rolesInOrder : List (List Char) → List Char → Prop
  | [], _ => True
  | r :: rs, s => ∃ a b, s = a ++ r ++ b ∧ rolesInOrder rs b

/-- Is this JSON value an array?  (`Array.isArray`.) -/
def isArrB : Json → Bool
  | Json.arr _ => true
  | _ => false

/-- A concrete two-task oracle whose second sub-agent call fails:
call 0 returns the rendered two-descriptor array, call 1 succeeds,
call 2 fails, call 3 (synthesis) succeeds. -/
def oracleTwoOneFail : Oracle := fun n =>
  if n = 0 then
    GenResult.ok (renderTasks [TaskDescriptor.mk "a" "b", TaskDescriptor.mk "c" "d"])
  else if n = 1 then GenResult.ok "t1"
  else if n = 2 then GenResult.fail
  else GenResult.ok "final"

/-! ### Round-trip lemmas: parsing a rendered descriptor array -/

theorem strData_append (s t : String) : (s ++ t).data = s.data ++ t.data := rfl

theorem skipWs_cons (c : Char) (cs : List Char) (h : isJsonWs c = false) :
    skipWs (c :: cs) = c :: cs := by
  simp [skipWs, List.dropWhile_cons, h]

theorem parseStrBody_cons (c : Char) (rest : List Char) :
    parseStrBody (c :: rest) =
      if c = '"' then some ([], rest)
      else if c = '\\' then
        match rest with
        | [] => none
        | e :: rest2 =>
          match escChar e with
          | none => none
          | some d => (parseStrBody rest2).map fun p => (d :: p.1, p.2)
      else (parseStrBody rest).map fun p => (c :: p.1, p.2) := by
  rw [parseStrBody.eq_def]

theorem parseStrBody_rt (s rest : List Char) (h : ∀ c ∈ s, c ≠ '"' ∧ c ≠ '\\') :
    parseStrBody (s ++ '"' :: rest) = some (s, rest) := by
  induction s with
  | nil => simp [parseStrBody_cons]
  | cons c s ih =>
    have hc := h c (by simp)
    simp [parseStrBody_cons, hc.1, hc.2, ih (fun d hd => h d (by simp [hd]))]

theorem parseVal_str (fuel : Nat) (s : String) (rest : List Char)
    (h : ∀ c ∈ s.data, c ≠ '"' ∧ c ≠ '\\') :
    parseVal (fuel + 1) ('"' :: (s.data ++ '"' :: rest)) = some (Json.strV s, rest) := by
  simp [parseVal, skipWs, List.dropWhile_cons, isJsonWs, parseStrBody_rt _ _ h]

theorem simpleStr_unesc (s : String) (h : SimpleStr s) :
    ∀ c ∈ s.data, c ≠ '"' ∧ c ≠ '\\' :=
  fun c hc => ⟨(h c hc).1, (h c hc).2.1⟩

theorem roleData : "role".data = ['r', 'o', 'l', 'e'] := rfl

theorem instructionData :
    "instruction".data = ['i', 'n', 's', 't', 'r', 'u', 'c', 't', 'i', 'o', 'n'] := rfl

theorem parseVal_task (fuel : Nat) (t : TaskDescriptor) (rest : List Char)
    (h : SimpleTask t) :
    parseVal (fuel + 4) (renderTaskChars t ++ rest) = some (t.toJson, rest) := by
  obtain ⟨hr, hi⟩ := h
  have hr' := simpleStr_unesc _ hr
  have hi' := simpleStr_unesc _ hi
  simp only [renderTaskChars, qstr, roleData, instructionData, List.cons_append,
    List.append_assoc, List.nil_append]
  simp [parseVal, parseFields, skipWs, List.dropWhile_cons, isJsonWs,
    parseStrBody_cons, parseStrBody_rt _ _ hr', parseStrBody_rt _ _ hi',
    parseVal_str, TaskDescriptor.toJson]

theorem parseElems_succ (fuel : Nat) (cs : List Char) :
    parseElems (fuel + 1) cs =
      match skipWs cs with
      | [] => none
      | c :: rest =>
        if c = ']' then some ([], rest)
        else
          match parseVal fuel (c :: rest) with
          | none => none
          | some (v, cs2) =>
            match skipWs cs2 with
            | [] => none
            | d :: cs3 =>
              if d = ',' then (parseElems fuel cs3).map fun p => (v :: p.1, p.2)
              else if d = ']' then some ([v], cs3)
              else none := by
  simp only [parseElems]

theorem parseElems_tasks (ts : List TaskDescriptor) (t : TaskDescriptor) (fuel : Nat)
    (rest : List Char) (ht : SimpleTask t) (hts : ∀ d ∈ ts, SimpleTask d) :
    parseElems (2 * ts.length + fuel + 5)
        (renderTaskChars t ++ (renderTailChars ts ++ (']' :: rest)))
      = some ((t :: ts).map TaskDescriptor.toJson, rest) := by
  induction ts generalizing t fuel rest with
  | nil =>
    obtain ⟨tl, htl⟩ : ∃ tl, renderTaskChars t = '{' :: tl := ⟨_, rfl⟩
    have hpv : parseVal (fuel + 4) ('{' :: (tl ++ (']' :: rest)))
        = some (t.toJson, ']' :: rest) := by
      rw [← List.cons_append, ← htl]
      exact parseVal_task fuel t _ ht
    have h4 : 2 * ([] : List TaskDescriptor).length + fuel + 5 = (fuel + 4) + 1 := by
      simp
    rw [h4, parseElems_succ]
    simp only [renderTailChars, List.nil_append, htl, List.cons_append]
    simp [skipWs, List.dropWhile_cons, isJsonWs, hpv]
  | cons t2 ts ih =>
    obtain ⟨tl, htl⟩ : ∃ tl, renderTaskChars t = '{' :: tl := ⟨_, rfl⟩
    have h4 : 2 * (t2 :: ts).length + fuel + 5 = ((2 * ts.length + fuel + 2) + 4) + 1 := by
      simp [List.length_cons]
      omega
    have hpv : parseVal ((2 * ts.length + fuel + 2) + 4)
        ('{' :: (tl ++ (',' :: (renderTaskChars t2 ++ (renderTailChars ts ++ (']' :: rest))))))
        = some (t.toJson, ',' :: (renderTaskChars t2 ++ (renderTailChars ts ++ (']' :: rest)))) := by
      rw [← List.cons_append, ← htl]
      exact parseVal_task _ t _ ht
    have ih' := ih t2 (fuel + 1) rest (hts t2 (by simp)) (fun d hd => hts d (by simp [hd]))
    have harith : 2 * ts.length + (fuel + 1) + 5 = ((2 * ts.length + fuel + 2) + 4) := by omega
    rw [harith] at ih'
    rw [h4, parseElems_succ]
    simp only [renderTailChars, List.cons_append, List.append_assoc, htl]
    simp [skipWs, List.dropWhile_cons, isJsonWs, hpv, ih']

theorem parseVal_succ (fuel : Nat) (cs : List Char) :
    parseVal (fuel + 1) cs =
      match skipWs cs with
      | [] => none
      | c :: rest =>
        if c = '"' then (parseStrBody rest).map fun p => (Json.strV ⟨p.1⟩, p.2)
        else if c = '[' then (parseElems fuel rest).map fun p => (Json.arr p.1, p.2)
        else if c = '{' then (parseFields fuel rest).map fun p => (Json.obj p.1, p.2)
        else if c = 'n' then
          if rest.take 3 = ['u', 'l', 'l'] then some (Json.nullV, rest.drop 3) else none
        else if c = 't' then
          if rest.take 3 = ['r', 'u', 'e'] then some (Json.boolV true, rest.drop 3) else none
        else if c = 'f' then
          if rest.take 4 = ['a', 'l', 's', 'e'] then some (Json.boolV false, rest.drop 4) else none
        else (parseNum (c :: rest)).map fun p => (Json.numV p.1, p.2) := by
  simp only [parseVal]

theorem renderTail_len (ts : List TaskDescriptor) :
    2 * ts.length ≤ (renderTailChars ts).length := by
  induction ts with
  | nil => simp [renderTailChars]
  | cons t ts ih =>
    simp only [renderTailChars, List.length_cons, List.length_append]
    simp [renderTaskChars, qstr]
    omega

theorem parseJsonChars_render (descs : List TaskDescriptor)
    (h : ∀ d ∈ descs, SimpleTask d) :
    parseJsonChars (renderTasksChars descs)
      = some (Json.arr (descs.map TaskDescriptor.toJson)) := by
  cases descs with
  | nil => rfl
  | cons t ts =>
    have hts := fun d hd => h d (List.mem_cons_of_mem _ hd)
    have ht := h t (List.mem_cons_self _ _)
    have hlenTail := renderTail_len ts
    have htlen : 1 ≤ (renderTaskChars t).length := by simp [renderTaskChars]
    have hL : 2 * ts.length + 3 ≤ (renderTasksChars (t :: ts)).length := by
      simp only [renderTasksChars, renderBody, List.length_cons, List.length_append,
        List.length_nil]
      omega
    obtain ⟨k, hk⟩ : ∃ k, 2 * (renderTasksChars (t :: ts)).length + 2
        = (2 * ts.length + k + 5) + 1 :=
      ⟨2 * (renderTasksChars (t :: ts)).length - (2 * ts.length + 4), by omega⟩
    have hpe := parseElems_tasks ts t k [] ht hts
    simp only [parseJsonChars, hk, parseVal_succ]
    simp only [renderTasksChars, renderBody, List.cons_append, List.append_assoc]
    simp [skipWs, List.dropWhile_cons, isJsonWs, hpe]

/-! ### Cleaning lemmas: fence stripping and trimming -/

theorem fenceTicksB_cons_false (c : Char) (rest : List Char) (h : c ≠ btick) :
    fenceTicksB (c :: rest) = false := by
  simp [fenceTicksB, List.take_succ_cons, h]

theorem fenceJsonB_cons_false (c : Char) (rest : List Char) (h : c ≠ btick) :
    fenceJsonB (c :: rest) = false := by
  simp [fenceJsonB, fenceTicksB_cons_false c rest h]

theorem fenceJsonNlB_cons_false (c : Char) (rest : List Char) (h : c ≠ btick) :
    fenceJsonNlB (c :: rest) = false := by
  simp [fenceJsonNlB, fenceJsonB_cons_false c rest h]

theorem stripFences_cons_no_btick (c : Char) (rest : List Char) (h : c ≠ btick) :
    stripFences (c :: rest) = c :: stripFences rest := by
  conv_lhs => rw [stripFences.eq_def]
  simp [fenceJsonNlB_cons_false c rest h, fenceJsonB_cons_false c rest h,
    fenceTicksB_cons_false c rest h]

theorem stripFences_append_no_btick (cs ds : List Char) (h : ∀ c ∈ cs, c ≠ btick) :
    stripFences (cs ++ ds) = cs ++ stripFences ds := by
  induction cs with
  | nil => simp
  | cons c cs ih =>
    rw [List.cons_append, stripFences_cons_no_btick c _ (h c (by simp)),
      ih (fun d hd => h d (by simp [hd])), List.cons_append]

theorem stripFences_nil : stripFences [] = [] := by rw [stripFences.eq_def]

theorem jsonTagB_false_head (c : Char) (rest : List Char) (h : ciIs 'j' 'J' c = false) :
    jsonTagB (c :: rest) = false := by
  rcases rest with _ | ⟨a, _ | ⟨b, _ | ⟨d, e⟩⟩⟩ <;> simp [jsonTagB, h]

theorem stripFences_fenceJsonNl (tail : List Char) :
    stripFences (btick :: btick :: btick :: 'j' :: 's' :: 'o' :: 'n' :: '\n' :: tail)
      = stripFences tail := by
  conv_lhs => rw [stripFences.eq_def]
  simp [fenceJsonNlB, fenceJsonB, fenceTicksB, jsonTagB, ciIs, List.take, List.drop, btick]

theorem stripFences_fenceTicksOnly (tail : List Char)
    (hhead : ∀ c1 c2 c3 c4 t2, tail = c1 :: c2 :: c3 :: c4 :: t2 → ciIs 'j' 'J' c1 = false) :
    stripFences (btick :: btick :: btick :: tail) = stripFences tail := by
  conv_lhs => rw [stripFences.eq_def]
  have htag : jsonTagB tail = false := by
    rcases tail with _ | ⟨a, _ | ⟨b, _ | ⟨d, _ | ⟨e, f⟩⟩⟩⟩ <;>
      simp_all [jsonTagB]
  simp [fenceJsonNlB, fenceJsonB, fenceTicksB, List.take, List.drop, htag, btick]

theorem dropWhile_all_append (p : Char → Bool) (pre l : List Char)
    (hp : ∀ c ∈ pre, p c = true) :
    (pre ++ l).dropWhile p = l.dropWhile p := by
  induction pre with
  | nil => simp
  | cons c cs ih =>
    rw [List.cons_append, List.dropWhile_cons]
    simp [hp c (by simp), ih (fun d hd => hp d (by simp [hd]))]

theorem trimChars_sandwich (pre mid post : List Char) (a b : Char)
    (ha : jsWs a = false) (hb : jsWs b = false)
    (hpre : ∀ c ∈ pre, jsWs c = true) (hpost : ∀ c ∈ post, jsWs c = true) :
    trimChars (pre ++ (a :: (mid ++ [b] ++ post))) = a :: (mid ++ [b]) := by
  unfold trimChars
  rw [dropWhile_all_append _ _ _ hpre, List.dropWhile_cons]
  simp only [ha, Bool.false_eq_true, if_false]
  have h1 : (a :: (mid ++ [b] ++ post)).reverse
      = post.reverse ++ (b :: (mid.reverse ++ [a])) := by
    simp [List.reverse_cons, List.reverse_append, List.append_assoc]
  rw [h1, dropWhile_all_append _ _ _ (fun c hc => hpost c (by
    simpa using List.mem_reverse.mp (by simpa using hc))), List.dropWhile_cons]
  simp only [hb, Bool.false_eq_true, if_false]
  simp [List.reverse_cons, List.reverse_append]

theorem btick_not_mem_renderTask (t : TaskDescriptor) (ht : SimpleTask t) :
    btick ∉ renderTaskChars t := by
  intro hmem
  simp [renderTaskChars, qstr, roleData, instructionData, btick] at hmem
  rcases hmem with h | h
  · exact (ht.1 btick h).2.2 rfl
  · exact (ht.2 btick h).2.2 rfl

theorem btick_not_mem_renderTail (ts : List TaskDescriptor)
    (h : ∀ d ∈ ts, SimpleTask d) : btick ∉ renderTailChars ts := by
  induction ts with
  | nil => simp [renderTailChars]
  | cons t ts ih =>
    intro hmem
    simp only [renderTailChars, List.mem_cons, List.mem_append] at hmem
    rcases hmem with h1 | h1 | h1
    · exact absurd h1 (by decide)
    · exact btick_not_mem_renderTask t (h t (by simp)) h1
    · exact ih (fun d hd => h d (by simp [hd])) h1

theorem btick_not_mem_render (descs : List TaskDescriptor)
    (h : ∀ d ∈ descs, SimpleTask d) :
    ∀ c ∈ renderTasksChars descs, c ≠ btick := by
  intro c hc he
  subst he
  have hbody : btick ∉ renderBody descs := by
    cases descs with
    | nil => simp [renderBody]
    | cons t ts =>
      simp only [renderBody, List.mem_append]
      rintro (h1 | h1)
      · exact btick_not_mem_renderTask t (h t (by simp)) h1
      · exact btick_not_mem_renderTail ts (fun d hd => h d (by simp [hd])) h1
  rw [renderTasksChars] at hc
  rcases List.mem_cons.mp hc with h1 | h1
  · exact absurd h1 (by decide)
  · rcases List.mem_append.mp h1 with h2 | h2
    · exact hbody h2
    · exact absurd h2 (by decide)

theorem stripFences_of_no_btick (cs : List Char) (h : ∀ c ∈ cs, c ≠ btick) :
    stripFences cs = cs := by
  have := stripFences_append_no_btick cs [] h
  simpa [stripFences_nil] using this

theorem cleanOf_no_btick (s : String) (h : ∀ c ∈ s.data, c ≠ btick) :
    cleanOf s = trimChars s.data := by
  unfold cleanOf
  rw [stripFences_of_no_btick _ h]

theorem cleanOf_render (descs : List TaskDescriptor) (h : ∀ d ∈ descs, SimpleTask d) :
    cleanOf (renderTasks descs) = renderTasksChars descs := by
  unfold cleanOf
  have hdata : (renderTasks descs).data = renderTasksChars descs := rfl
  rw [hdata, stripFences_of_no_btick _ (btick_not_mem_render descs h)]
  have h3 : renderTasksChars descs = [] ++ ('[' :: (renderBody descs ++ [']'] ++ [])) := by
    simp [renderTasksChars]
  rw [h3, trimChars_sandwich [] (renderBody descs) [] '[' ']' (by decide) (by decide)
    (by simp) (by simp)]
  simp [renderTasksChars]

theorem stripFences_newline_ticks :
    stripFences ('\n' :: btick :: btick :: btick :: []) = ['\n'] := by
  rw [stripFences_cons_no_btick _ _ (by decide),
    stripFences_fenceTicksOnly [] (by intro c1 c2 c3 c4 t2 hcon; cases hcon),
    stripFences_nil]

theorem cleanOf_wrapTagged (descs : List TaskDescriptor)
    (h : ∀ d ∈ descs, SimpleTask d) :
    cleanOf (wrapTagged (renderTasks descs)) = renderTasksChars descs := by
  unfold cleanOf
  have h1 : (wrapTagged (renderTasks descs)).data
      = btick :: btick :: btick :: 'j' :: 's' :: 'o' :: 'n' :: '\n'
          :: (renderTasksChars descs ++ ('\n' :: btick :: btick :: btick :: [])) := rfl
  rw [h1, stripFences_fenceJsonNl,
    stripFences_append_no_btick _ _ (btick_not_mem_render descs h),
    stripFences_newline_ticks]
  have h3 : renderTasksChars descs ++ ['\n']
      = [] ++ ('[' :: (renderBody descs ++ [']'] ++ ['\n'])) := by
    simp [renderTasksChars]
  rw [h3, trimChars_sandwich [] (renderBody descs) ['\n'] '[' ']' (by decide) (by decide)
    (by simp) (by simp [jsWs])]
  simp [renderTasksChars]

theorem cleanOf_wrapPlain (descs : List TaskDescriptor)
    (h : ∀ d ∈ descs, SimpleTask d) :
    cleanOf (wrapPlain (renderTasks descs)) = renderTasksChars descs := by
  unfold cleanOf
  have h1 : (wrapPlain (renderTasks descs)).data
      = btick :: btick :: btick
          :: ('\n' :: (renderTasksChars descs ++ ('\n' :: btick :: btick :: btick :: []))) := rfl
  rw [h1, stripFences_fenceTicksOnly _ (by
    intro c1 c2 c3 c4 t2 hcon
    injection hcon with h5 h6
    subst h5
    decide),
    stripFences_cons_no_btick _ _ (by decide),
    stripFences_append_no_btick _ _ (btick_not_mem_render descs h),
    stripFences_newline_ticks]
  have h3 : '\n' :: (renderTasksChars descs ++ ['\n'])
      = ['\n'] ++ ('[' :: (renderBody descs ++ [']'] ++ ['\n'])) := by
    simp [renderTasksChars]
  rw [h3, trimChars_sandwich ['\n'] (renderBody descs) ['\n'] '[' ']' (by decide) (by decide)
    (by simp [jsWs]) (by simp [jsWs])]
  simp [renderTasksChars]

theorem effectiveTasks_render (descs : List TaskDescriptor)
    (h : ∀ d ∈ descs, SimpleTask d) :
    effectiveTasks (renderTasks descs) = descs.map TaskDescriptor.toJson := by
  unfold effectiveTasks parsedTasks
  rw [cleanOf_render descs h, parseJsonChars_render descs h]

theorem effectiveTasks_wrapTagged (descs : List TaskDescriptor)
    (h : ∀ d ∈ descs, SimpleTask d) :
    effectiveTasks (wrapTagged (renderTasks descs)) = descs.map TaskDescriptor.toJson := by
  unfold effectiveTasks parsedTasks
  rw [cleanOf_wrapTagged descs h, parseJsonChars_render descs h]

theorem effectiveTasks_wrapPlain (descs : List TaskDescriptor)
    (h : ∀ d ∈ descs, SimpleTask d) :
    effectiveTasks (wrapPlain (renderTasks descs)) = descs.map TaskDescriptor.toJson := by
  unfold effectiveTasks parsedTasks
  rw [cleanOf_wrapPlain descs h, parseJsonChars_render descs h]

/-! ### Field access and fan-out lemmas -/

theorem getField_toJson_role (d : TaskDescriptor) :
    getField d.toJson "role" = some (JsVal.val (Json.strV d.role)) := rfl

theorem getField_toJson_instruction (d : TaskDescriptor) :
    getField d.toJson "instruction" = some (JsVal.val (Json.strV d.instruction)) := rfl

theorem agentCall_toJson (d : TaskDescriptor) (msg : String) :
    agentCall? d.toJson msg = some (agentPromptOf msg d, d.role) := rfl

theorem agentCall_null (msg : String) : agentCall? Json.nullV msg = none := rfl

theorem runAgents_descs (oracle : Oracle) (msg : String) (descs : List TaskDescriptor)
    (idx : Nat) :
    runAgents oracle msg (descs.map TaskDescriptor.toJson) idx
      = (descs.map (agentPromptOf msg), (descOutcomes oracle idx descs).map some,
         idx + descs.length) := by
  induction descs generalizing idx with
  | nil => simp [runAgents, descOutcomes]
  | cons d ds ih =>
    cases hoc : oracle idx with
    | ok t =>
      simp [runAgents, agentCall_toJson, descOutcomes, descOutcome, hoc, ih (idx + 1)]
      omega
    | fail =>
      simp [runAgents, agentCall_toJson, descOutcomes, descOutcome, hoc, ih (idx + 1)]
      omega

theorem runAgents_trace (oracle : Oracle) (msg : String) (ts : List Json) (idx : Nat) :
    (runAgents oracle msg ts idx).1
      = ts.filterMap (fun t => (agentCall? t msg).map Prod.fst) := by
  induction ts generalizing idx with
  | nil => simp [runAgents]
  | cons t ts ih =>
    cases hac : agentCall? t msg with
    | none => simp [runAgents, hac, ih idx]
    | some p =>
      obtain ⟨pp, rr⟩ := p
      simp [runAgents, hac, ih (idx + 1)]

theorem runAgents_all_isSome (oracle : Oracle) (msg : String) (ts : List Json) (idx : Nat) :
    ((runAgents oracle msg ts idx).2.1.all Option.isSome)
      = ts.all (fun t => (agentCall? t msg).isSome) := by
  induction ts generalizing idx with
  | nil => simp [runAgents]
  | cons t ts ih =>
    cases hac : agentCall? t msg with
    | none => simp [runAgents, hac, ih idx]
    | some p =>
      obtain ⟨pp, rr⟩ := p
      simp [runAgents, hac, ih (idx + 1)]

theorem filterMap_id_map_some (l : List String) : (l.map some).filterMap id = l := by
  induction l with
  | nil => simp
  | cons x xs ih => simp [ih]

theorem descOutcomes_length (oracle : Oracle) (idx : Nat) (ds : List TaskDescriptor) :
    (descOutcomes oracle idx ds).length = ds.length := by
  induction ds generalizing idx with
  | nil => simp [descOutcomes]
  | cons d ds ih => simp [descOutcomes, ih (idx + 1)]

theorem descOutcomes_append (oracle : Oracle) (idx : Nat) (as bs : List TaskDescriptor) :
    descOutcomes oracle idx (as ++ bs)
      = descOutcomes oracle idx as ++ descOutcomes oracle (idx + as.length) bs := by
  induction as generalizing idx with
  | nil => simp [descOutcomes]
  | cons a as ih =>
    have harith : idx + 1 + as.length = idx + (a :: as).length := by
      simp
      omega
    calc descOutcomes oracle idx ((a :: as) ++ bs)
        = descOutcome oracle idx a :: descOutcomes oracle (idx + 1) (as ++ bs) := rfl
      _ = descOutcome oracle idx a
            :: (descOutcomes oracle (idx + 1) as
              ++ descOutcomes oracle (idx + 1 + as.length) bs) := by rw [ih (idx + 1)]
      _ = descOutcomes oracle idx (a :: as)
            ++ descOutcomes oracle (idx + (a :: as).length) bs := by rw [harith]; rfl

theorem descOutcomes_ok (oracle : Oracle) (f : Nat → String) (idx k : Nat)
    (ds : List TaskDescriptor)
    (h : ∀ j, j < ds.length → oracle (idx + j) = GenResult.ok (f (k + j))) :
    descOutcomes oracle idx ds = realOutcomes f k ds := by
  induction ds generalizing idx k with
  | nil => simp [descOutcomes, realOutcomes]
  | cons d ds ih =>
    have h0 : oracle idx = GenResult.ok (f k) := by
      have := h 0 (by simp)
      simpa using this
    have hrest : ∀ j, j < ds.length → oracle (idx + 1 + j) = GenResult.ok (f (k + 1 + j)) := by
      intro j hj
      have := h (j + 1) (by simp; omega)
      have e1 : idx + (j + 1) = idx + 1 + j := by omega
      have e2 : k + (j + 1) = k + 1 + j := by omega
      rw [e1, e2] at this
      exact this
    simp [descOutcomes, realOutcomes, descOutcome, h0, ih (idx + 1) (k + 1) hrest]

/-! ### Role labels occur in order in the combined report -/

theorem rolesInOrder_append_left (rs : List (List Char)) (t s : List Char)
    (h : rolesInOrder rs s) : rolesInOrder rs (t ++ s) := by
  cases rs with
  | nil => trivial
  | cons r rs =>
    obtain ⟨a, b, heq, hrec⟩ := h
    exact ⟨t ++ a, b, by rw [heq]; simp [List.append_assoc], hrec⟩

theorem descOutcome_shape (oracle : Oracle) (idx : Nat) (d : TaskDescriptor) :
    ∃ x : String, (descOutcome oracle idx d).data
      = "【".data ++ d.role.data ++ x.data := by
  cases hoc : oracle idx with
  | ok t =>
    exact ⟨" 的回報】:\n" ++ t, by simp [descOutcome, hoc, strData_append, List.append_assoc]⟩
  | fail =>
    exact ⟨" 的回報】: (執行失敗)", by simp [descOutcome, hoc, strData_append, List.append_assoc]⟩

theorem rolesInOrder_outcomes (oracle : Oracle) (idx : Nat) (descs : List TaskDescriptor) :
    rolesInOrder (descs.map (fun d => d.role.data))
      (joinSep "\n\n" (descOutcomes oracle idx descs)).data := by
  induction descs generalizing idx with
  | nil => trivial
  | cons d ds ih =>
    obtain ⟨x, hx⟩ := descOutcome_shape oracle idx d
    cases ds with
    | nil =>
      refine ⟨"【".data, x.data, ?_, trivial⟩
      simpa [descOutcomes, joinSep, List.append_assoc] using hx
    | cons d2 ds2 =>
      refine ⟨"【".data, x.data ++ "\n\n".data
        ++ (joinSep "\n\n" (descOutcomes oracle (idx + 1) (d2 :: ds2))).data, ?_, ?_⟩
      · have : joinSep "\n\n" (descOutcomes oracle idx (d :: d2 :: ds2))
            = descOutcome oracle idx d ++ "\n\n"
              ++ joinSep "\n\n" (descOutcomes oracle (idx + 1) (d2 :: ds2)) := by
          simp [descOutcomes, joinSep]
        rw [this]
        simp [strData_append, hx, List.append_assoc]
      · have := rolesInOrder_append_left _ (x.data ++ "\n\n".data)
          _ (ih (idx + 1))
        simpa [List.append_assoc] using this

theorem all_isSome_map_some (l : List String) : (l.map some).all Option.isSome = true := by
  induction l with
  | nil => simp
  | cons x xs ih => simp [ih]

/-! ### The claims -/

/-- C5: every text-message invocation yields exactly one reply text — the
terminal value is always a `done` or `failedReply` carrying a single string,
and the `Except`-modelled internal errors never escape `handleTextMessage`. -/
theorem claim_C5_single_reply (oracle : Oracle) (msg : String) :
    ∃ t : String,
      (handleTextMessage oracle msg).1.text = t ∧
      ((handleTextMessage oracle msg).1 = PipelineResult.done t
        ∨ (handleTextMessage oracle msg).1 = PipelineResult.failedReply t) := by
  rcases h : (handleTextMessage oracle msg).1 with t | t
  · exact ⟨t, rfl, Or.inl rfl⟩
  · exact ⟨t, rfl, Or.inr rfl⟩

/-- C6: if the supervisor call fails, the pipeline returns the fixed apology
text and the trace holds exactly the one supervisor prompt — no retry, no
sub-agent call, no synthesis call. -/
theorem claim_C6_total_failure (oracle : Oracle) (msg : String)
    (h0 : oracle 0 = GenResult.fail) :
    handleTextMessage oracle msg
      = (PipelineResult.failedReply APOLOGY, [supervisorPrompt msg]) := by
  simp [handleTextMessage, pipelineBody, h0]

theorem claim_C6_witness :
    (fun _ : Nat => GenResult.fail) 0 = GenResult.fail ∧
    handleTextMessage (fun _ => GenResult.fail) "hi"
      = (PipelineResult.failedReply APOLOGY, [supervisorPrompt "hi"]) :=
  ⟨rfl, claim_C6_total_failure (fun _ => GenResult.fail) "hi" rfl⟩

/-- C7: when the supervisor response parses to the empty sequence, exactly
one further backend call is made, its prompt is the raw user message with no
template wrapping, and its text is returned verbatim. -/
theorem claim_C7_fallback (oracle : Oracle) (msg supText t : String)
    (h0 : oracle 0 = GenResult.ok supText)
    (hp : effectiveTasks supText = [])
    (h1 : oracle 1 = GenResult.ok t) :
    handleTextMessage oracle msg = (PipelineResult.done t, [supervisorPrompt msg, msg]) := by
  simp [handleTextMessage, pipelineBody, h0, hp, h1]

theorem claim_C7_witness :
    ((fun n => if n = 0 then GenResult.ok "not json" else GenResult.ok "reply") : Oracle) 0
        = GenResult.ok "not json" ∧
    effectiveTasks "not json" = [] ∧
    handleTextMessage (fun n => if n = 0 then GenResult.ok "not json" else GenResult.ok "reply")
        "m" = (PipelineResult.done "reply", [supervisorPrompt "m", "m"]) := by
  have hp : effectiveTasks "not json" = [] := by
    unfold effectiveTasks parsedTasks
    rw [cleanOf_no_btick _ (by decide)]
    rfl
  exact ⟨rfl, hp, claim_C7_fallback _ "m" "not json" "reply" rfl hp rfl⟩

/-- C9: parsing is a total function modelled without exceptions — a thrown
`JSON.parse` is the `none` case, which the inner `catch` collapses to the
empty task list, so the pipeline takes the fallback path rather than
reaching the outer `catch`. -/
theorem claim_C9_parse_total (raw : String) (oracle : Oracle) (msg : String)
    (hmal : parseJsonChars (cleanOf raw) = none)
    (h0 : oracle 0 = GenResult.ok raw) :
    effectiveTasks raw = [] ∧
    (handleTextMessage oracle msg).2 = [supervisorPrompt msg, msg] := by
  have hempty : effectiveTasks raw = [] := by
    unfold effectiveTasks parsedTasks
    rw [hmal]
  refine ⟨hempty, ?_⟩
  cases h1 : oracle 1 <;> simp [handleTextMessage, pipelineBody, h0, hempty, h1]

theorem claim_C9_witness :
    parseJsonChars (cleanOf "oops") = none ∧
    effectiveTasks "oops" = [] ∧
    (handleTextMessage (fun n => if n = 0 then GenResult.ok "oops" else GenResult.fail) "m").2
      = [supervisorPrompt "m", "m"] := by
  have hmal : parseJsonChars (cleanOf "oops") = none := by
    rw [cleanOf_no_btick _ (by decide)]
    rfl
  exact ⟨hmal,
    (claim_C9_parse_total "oops" (fun n => if n = 0 then GenResult.ok "oops" else GenResult.fail)
      "m" hmal rfl).1,
    (claim_C9_parse_total "oops" (fun n => if n = 0 then GenResult.ok "oops" else GenResult.fail)
      "m" hmal rfl).2⟩

/-- C3 counterexample: the supervisor output `"[1,2]"` is a JSON array whose
elements are not objects; the claim says the parse step yields an empty
sequence and the fallback path is taken, but the code keeps the two numeric
tasks and takes the fan-out path, making 4 backend calls instead of 2. -/
theorem claim_C3_counterexample :
    effectiveTasks "[1,2]" = [Json.numV 1, Json.numV 2] ∧
    (handleTextMessage (fun n => if n = 0 then GenResult.ok "[1,2]" else GenResult.ok "r")
      "m").2.length = 4 := by
  have heff : effectiveTasks "[1,2]" = [Json.numV 1, Json.numV 2] := by
    unfold effectiveTasks parsedTasks
    rw [cleanOf_no_btick _ (by decide)]
    rfl
  refine ⟨heff, ?_⟩
  simp [handleTextMessage, pipelineBody, heff, runAgents, agentCall?, getField, jsLookupLast,
    joinSep]

/-- C3 (amended): for supervisor output that fails to parse, parses to a
non-array JSON value, or parses to the empty array, the parse step yields
the empty sequence and the orchestrator takes the fallback path (the trace
is the supervisor prompt followed by the raw-message fallback call); a
non-empty JSON array of non-object elements is passed to the fan-out path
instead. -/
theorem claim_C3_amended (oracle : Oracle) (msg supText : String)
    (h0 : oracle 0 = GenResult.ok supText)
    (hcls : parseJsonChars (cleanOf supText) = none
      ∨ parseJsonChars (cleanOf supText) = some (Json.arr [])
      ∨ (∃ v, parseJsonChars (cleanOf supText) = some v ∧ isArrB v = false)) :
    effectiveTasks supText = [] ∧
    (handleTextMessage oracle msg).2 = [supervisorPrompt msg, msg] := by
  have hempty : effectiveTasks supText = [] := by
    unfold effectiveTasks parsedTasks
    rcases hcls with h | h | ⟨v, hv, hva⟩
    · rw [h]
    · rw [h]
    · rw [hv]
      cases v <;> simp [isArrB] at hva ⊢
  refine ⟨hempty, ?_⟩
  cases h1 : oracle 1 <;> simp [handleTextMessage, pipelineBody, h0, hempty, h1]

theorem claim_C3_amended_witness :
    parseJsonChars (cleanOf "\x7b\"a\":1\x7d") = some (Json.obj [("a", Json.numV 1)]) ∧
    isArrB (Json.obj [("a", Json.numV 1)]) = false ∧
    effectiveTasks "\x7b\"a\":1\x7d" = [] ∧
    (handleTextMessage (fun n => if n = 0 then GenResult.ok "\x7b\"a\":1\x7d"
        else GenResult.ok "r") "m").2 = [supervisorPrompt "m", "m"] := by
  have hparse : parseJsonChars (cleanOf "\x7b\"a\":1\x7d")
      = some (Json.obj [("a", Json.numV 1)]) := by
    rw [cleanOf_no_btick _ (by decide)]
    rfl
  exact ⟨hparse, rfl,
    (claim_C3_amended (fun n => if n = 0 then GenResult.ok "\x7b\"a\":1\x7d"
      else GenResult.ok "r") "m" "\x7b\"a\":1\x7d" rfl
      (Or.inr (Or.inr ⟨Json.obj [("a", Json.numV 1)], hparse, rfl⟩))).1,
    (claim_C3_amended (fun n => if n = 0 then GenResult.ok "\x7b\"a\":1\x7d"
      else GenResult.ok "r") "m" "\x7b\"a\":1\x7d" rfl
      (Or.inr (Or.inr ⟨Json.obj [("a", Json.numV 1)], hparse, rfl⟩))).2⟩

/-- C1: when the supervisor response parses to a non-empty list of `N`
descriptors, the trace holds exactly the supervisor call, the `N` sub-agent
calls in descriptor order, and one synthesis call, and the combined-text
argument of the synthesis prompt contains all `N` role labels in the
original descriptor order. -/
theorem claim_C1_fanout (oracle : Oracle) (msg supText : String)
    (descs : List TaskDescriptor) (hne : descs ≠ [])
    (h0 : oracle 0 = GenResult.ok supText)
    (hp : effectiveTasks supText = descs.map TaskDescriptor.toJson) :
    (handleTextMessage oracle msg).2
      = supervisorPrompt msg :: descs.map (agentPromptOf msg)
        ++ [buildSynthesizerPrompt msg (joinSep "\n\n" (descOutcomes oracle 1 descs))] ∧
    rolesInOrder (descs.map (fun d => d.role.data))
      (joinSep "\n\n" (descOutcomes oracle 1 descs)).data := by
  refine ⟨?_, rolesInOrder_outcomes oracle 1 descs⟩
  have hempty : (descs.map TaskDescriptor.toJson).isEmpty = false := by
    cases descs with
    | nil => exact absurd rfl hne
    | cons d ds => rfl
  cases hsy : oracle (1 + descs.length) with
  | ok t =>
    simp [handleTextMessage, pipelineBody, h0, hp, hempty, runAgents_descs,
      filterMap_id_map_some, all_isSome_map_some, hsy]
  | fail =>
    simp [handleTextMessage, pipelineBody, h0, hp, hempty, runAgents_descs,
      filterMap_id_map_some, all_isSome_map_some, hsy]

theorem claim_C1_witness :
    ([TaskDescriptor.mk "a" "b"] ≠ ([] : List TaskDescriptor)) ∧
    (handleTextMessage
        (fun n => if n = 0 then GenResult.ok (renderTasks [TaskDescriptor.mk "a" "b"])
          else GenResult.ok "t") "m").2
      = supervisorPrompt "m" :: [TaskDescriptor.mk "a" "b"].map (agentPromptOf "m")
        ++ [buildSynthesizerPrompt "m" (joinSep "\n\n" (descOutcomes
            (fun n => if n = 0 then GenResult.ok (renderTasks [TaskDescriptor.mk "a" "b"])
              else GenResult.ok "t") 1 [TaskDescriptor.mk "a" "b"]))] := by
  refine ⟨by decide, ?_⟩
  exact (claim_C1_fanout
    (fun n => if n = 0 then GenResult.ok (renderTasks [TaskDescriptor.mk "a" "b"])
      else GenResult.ok "t") "m" (renderTasks [TaskDescriptor.mk "a" "b"])
    [TaskDescriptor.mk "a" "b"] (by decide) rfl
    (effectiveTasks_render [TaskDescriptor.mk "a" "b"] (by decide))).1

/-- C2: when exactly one of the `N` sub-agent calls fails (here the one for
`dfail`, at call index `1 + pre.length`) and every other call succeeds, the
synthesis stage still runs and receives all `N` outcomes — `N − 1` real
reports plus the fixed placeholder for the failed one — and the pipeline
completes with `done` (the spec's `DONE`), not with the apology reply. -/
theorem claim_C2_partial_failure (oracle : Oracle) (msg supText finalText : String)
    (pre post : List TaskDescriptor) (dfail : TaskDescriptor) (okText : Nat → String)
    (h0 : oracle 0 = GenResult.ok supText)
    (hp : effectiveTasks supText = (pre ++ dfail :: post).map TaskDescriptor.toJson)
    (hfail : oracle (1 + pre.length) = GenResult.fail)
    (hok : ∀ j, j < (pre ++ dfail :: post).length → j ≠ pre.length
      → oracle (1 + j) = GenResult.ok (okText j))
    (hsynth : oracle (1 + (pre ++ dfail :: post).length) = GenResult.ok finalText) :
    (handleTextMessage oracle msg).1 = PipelineResult.done finalText ∧
    descOutcomes oracle 1 (pre ++ dfail :: post)
      = realOutcomes okText 0 pre ++ failOutcome dfail
        :: realOutcomes okText (pre.length + 1) post ∧
    (descOutcomes oracle 1 (pre ++ dfail :: post)).length = (pre ++ dfail :: post).length ∧
    (handleTextMessage oracle msg).2
      = supervisorPrompt msg :: (pre ++ dfail :: post).map (agentPromptOf msg)
        ++ [buildSynthesizerPrompt msg
            (joinSep "\n\n" (descOutcomes oracle 1 (pre ++ dfail :: post)))] := by
  have hpreout : descOutcomes oracle 1 pre = realOutcomes okText 0 pre := by
    apply descOutcomes_ok
    intro j hj
    have hlt : j < (pre ++ dfail :: post).length := by
      simp [List.length_append]
      omega
    have := hok j hlt (by omega)
    simpa using this
  have hpostout : descOutcomes oracle (1 + pre.length + 1) post
      = realOutcomes okText (pre.length + 1) post := by
    apply descOutcomes_ok
    intro j hj
    have h1 : pre.length + 1 + j < (pre ++ dfail :: post).length := by
      simp [List.length_append]
      omega
    have h2 : pre.length + 1 + j ≠ pre.length := by omega
    have := hok (pre.length + 1 + j) h1 h2
    have e : 1 + (pre.length + 1 + j) = 1 + pre.length + 1 + j := by omega
    rw [e] at this
    exact this
  have hmid : descOutcome oracle (1 + pre.length) dfail = failOutcome dfail := by
    simp [descOutcome, hfail, failOutcome]
  have houts : descOutcomes oracle 1 (pre ++ dfail :: post)
      = realOutcomes okText 0 pre ++ failOutcome dfail
        :: realOutcomes okText (pre.length + 1) post := by
    rw [descOutcomes_append]
    rw [show descOutcomes oracle (1 + pre.length) (dfail :: post)
        = descOutcome oracle (1 + pre.length) dfail
          :: descOutcomes oracle (1 + pre.length + 1) post from rfl]
    rw [hpreout, hmid, hpostout]
  have hempty : ((pre ++ dfail :: post).map TaskDescriptor.toJson).isEmpty = false := by
    cases pre <;> rfl
  refine ⟨?_, houts, descOutcomes_length _ _ _, ?_⟩
  · obtain ⟨descs, hdeq⟩ : ∃ l, (pre ++ dfail :: post) = l := ⟨_, rfl⟩
    rw [hdeq] at hp hempty hsynth
    simp [handleTextMessage, pipelineBody, h0, hp, hempty, runAgents_descs,
      filterMap_id_map_some, all_isSome_map_some, hsynth]
  · obtain ⟨descs, hdeq⟩ : ∃ l, (pre ++ dfail :: post) = l := ⟨_, rfl⟩
    rw [hdeq] at hp hempty hsynth ⊢
    simp [handleTextMessage, pipelineBody, h0, hp, hempty, runAgents_descs,
      filterMap_id_map_some, all_isSome_map_some, hsynth]

theorem claim_C2_witness :
    oracleTwoOneFail (1 + [TaskDescriptor.mk "a" "b"].length) = GenResult.fail ∧
    (handleTextMessage oracleTwoOneFail "m").1 = PipelineResult.done "final" ∧
    descOutcomes oracleTwoOneFail 1
        ([TaskDescriptor.mk "a" "b"] ++ TaskDescriptor.mk "c" "d" :: [])
      = realOutcomes (fun _ => "t1") 0 [TaskDescriptor.mk "a" "b"]
        ++ failOutcome (TaskDescriptor.mk "c" "d")
          :: realOutcomes (fun _ => "t1") ([TaskDescriptor.mk "a" "b"].length + 1) [] := by
  have happ := claim_C2_partial_failure oracleTwoOneFail "m"
    (renderTasks [TaskDescriptor.mk "a" "b", TaskDescriptor.mk "c" "d"]) "final"
    [TaskDescriptor.mk "a" "b"] [] (TaskDescriptor.mk "c" "d") (fun _ => "t1") rfl
    (effectiveTasks_render [TaskDescriptor.mk "a" "b", TaskDescriptor.mk "c" "d"] (by decide))
    rfl (by decide) rfl
  exact ⟨rfl, happ.1, happ.2.1⟩

/-- C10: if the parsed task array contains a `null` element, `task.role`
throws before the per-task `catch` protects the backend call, `Promise.all`
rejects, the sibling results are discarded, no synthesis call appears in
the trace, and the pipeline returns the fixed apology instead of producing
a placeholder outcome. -/
theorem claim_C10_null_task (oracle : Oracle) (msg supText : String) (ts : List Json)
    (h0 : oracle 0 = GenResult.ok supText)
    (hp : effectiveTasks supText = ts)
    (hnull : Json.nullV ∈ ts) :
    (handleTextMessage oracle msg).1 = PipelineResult.failedReply APOLOGY ∧
    (handleTextMessage oracle msg).2
      = supervisorPrompt msg :: ts.filterMap (fun t => (agentCall? t msg).map Prod.fst) := by
  have hne : ts ≠ [] := List.ne_nil_of_mem hnull
  have hempty : ts.isEmpty = false := by
    cases ts with
    | nil => exact absurd rfl hne
    | cons t ts => rfl
  have hallfalse : ts.all (fun t => (agentCall? t msg).isSome) = false := by
    cases hall : ts.all (fun t => (agentCall? t msg).isSome)
    · rfl
    · exfalso
      have := List.all_eq_true.mp hall _ hnull
      simp [agentCall?, getField] at this
  constructor
  · simp [handleTextMessage, pipelineBody, h0, hp, hempty, runAgents_all_isSome, hallfalse]
  · simp [handleTextMessage, pipelineBody, h0, hp, hempty, runAgents_all_isSome, hallfalse,
      runAgents_trace]

theorem claim_C10_witness :
    effectiveTasks "[null]" = [Json.nullV] ∧
    (handleTextMessage (fun n => if n = 0 then GenResult.ok "[null]" else GenResult.ok "x")
      "m").1 = PipelineResult.failedReply APOLOGY := by
  have heff : effectiveTasks "[null]" = [Json.nullV] := by
    unfold effectiveTasks parsedTasks
    rw [cleanOf_no_btick _ (by decide)]
    rfl
  exact ⟨heff,
    (claim_C10_null_task (fun n => if n = 0 then GenResult.ok "[null]" else GenResult.ok "x")
      "m" "[null]" [Json.nullV] rfl heff (by simp)).1⟩

/-- C4 counterexample: `[\x7b"role":"a```b","instruction":"c"\x7d]` is valid
JSON array text of `\x7brole, instruction\x7d` objects, but the
fence-stripping pass deletes the triple backticks inside the role string
before `JSON.parse` runs, so the parse step returns the role `"ab"` — the
exact field value is not preserved. -/
theorem claim_C4_counterexample :
    effectiveTasks (renderTasks [TaskDescriptor.mk "a```b" "c"])
      = [Json.obj [("role", Json.strV "ab"), ("instruction", Json.strV "c")]] ∧
    ("ab" : String) ≠ "a```b" := by
  have hclean : cleanOf (renderTasks [TaskDescriptor.mk "a```b" "c"])
      = "[\x7b\"role\":\"ab\",\"instruction\":\"c\"\x7d]".data := by
    unfold cleanOf
    rw [show (renderTasks [TaskDescriptor.mk "a```b" "c"]).data
        = "[\x7b\"role\":\"a".data
          ++ (btick :: btick :: btick :: "b\",\"instruction\":\"c\"\x7d]".data) from rfl]
    rw [stripFences_append_no_btick _ _ (by decide)]
    rw [stripFences_fenceTicksOnly _ (by
      intro c1 c2 c3 c4 t2 hcon
      injection hcon with h5 h6
      subst h5
      decide)]
    rw [stripFences_of_no_btick _ (by decide)]
    rfl
  have heff : effectiveTasks (renderTasks [TaskDescriptor.mk "a```b" "c"])
      = [Json.obj [("role", Json.strV "ab"), ("instruction", Json.strV "c")]] := by
    unfold effectiveTasks parsedTasks
    rw [hclean]
    rfl
  exact ⟨heff, by decide⟩

/-- C4 (amended): for every JSON array text of `\x7brole, instruction\x7d`
objects whose field strings are escape-free and backtick-free (so the
fence-stripping pass cannot alter them), the parse step returns a sequence
of equal length preserving order and the exact field values, with or
without surrounding fenced-code markers; a field value containing triple
backticks is altered by the stripping pass before parsing. -/
theorem claim_C4_parser_preserves (descs : List TaskDescriptor)
    (h : ∀ d ∈ descs, SimpleTask d) :
    effectiveTasks (renderTasks descs) = descs.map TaskDescriptor.toJson ∧
    (effectiveTasks (renderTasks descs)).length = descs.length ∧
    effectiveTasks (wrapTagged (renderTasks descs)) = descs.map TaskDescriptor.toJson ∧
    ∀ d ∈ descs,
      getField d.toJson "role" = some (JsVal.val (Json.strV d.role)) ∧
      getField d.toJson "instruction" = some (JsVal.val (Json.strV d.instruction)) := by
  refine ⟨effectiveTasks_render descs h, ?_, effectiveTasks_wrapTagged descs h, ?_⟩
  · rw [effectiveTasks_render descs h]
    simp
  · intro d _
    exact ⟨rfl, rfl⟩

theorem claim_C4_witness :
    (∀ d ∈ [TaskDescriptor.mk "a" "b", TaskDescriptor.mk "c" "d"], SimpleTask d) ∧
    effectiveTasks (renderTasks [TaskDescriptor.mk "a" "b", TaskDescriptor.mk "c" "d"])
      = [TaskDescriptor.mk "a" "b", TaskDescriptor.mk "c" "d"].map TaskDescriptor.toJson :=
  ⟨by decide, (claim_C4_parser_preserves
    [TaskDescriptor.mk "a" "b", TaskDescriptor.mk "c" "d"] (by decide)).1⟩

/-- C8: wrapping a valid JSON array text in fenced-code markers — tagged
```` ```json ```` or untagged ```` ``` ```` — before parsing yields the same
parse result as parsing it unwrapped. -/
theorem claim_C8_fence_invariance (descs : List TaskDescriptor)
    (h : ∀ d ∈ descs, SimpleTask d) :
    effectiveTasks (wrapTagged (renderTasks descs)) = effectiveTasks (renderTasks descs) ∧
    effectiveTasks (wrapPlain (renderTasks descs)) = effectiveTasks (renderTasks descs) := by
  rw [effectiveTasks_render descs h, effectiveTasks_wrapTagged descs h,
    effectiveTasks_wrapPlain descs h]
  exact ⟨rfl, rfl⟩

theorem claim_C8_witness :
    (∀ d ∈ [TaskDescriptor.mk "x" "y"], SimpleTask d) ∧
    effectiveTasks (wrapTagged (renderTasks [TaskDescriptor.mk "x" "y"]))
      = effectiveTasks (renderTasks [TaskDescriptor.mk "x" "y"]) ∧
    effectiveTasks (wrapPlain (renderTasks [TaskDescriptor.mk "x" "y"]))
      = effectiveTasks (renderTasks [TaskDescriptor.mk "x" "y"]) :=
  ⟨by decide, (claim_C8_fence_invariance [TaskDescriptor.mk "x" "y"] (by decide)).1,
    (claim_C8_fence_invariance [TaskDescriptor.mk "x" "y"] (by decide)).2⟩

end MarsBot
